import Mathlib

/-!
Shallow embedding of `tasks.py`, the build/release automation of this
repository (an `invoke` task file).  Pure functions model the functions of
the source; external command execution is modelled by returning the list of
command strings that would be issued, and `sys.exit(1)` / raised exceptions
by an `Except` error result.
-/

namespace Tasks

/-! ### Python string ordering

Python compares strings lexicographically by code point; `sorted` uses that
order.  `String.ltb` of core Lean does not reduce in the kernel, so we use
an explicit code-point comparator.
-/

/-- Code-point lexicographic `≤` on char lists, as Python compares strings. -/
def strLeB : List Char → List Char → Bool
  | [], _ => true
  | _ :: _, [] => false
  | a :: as, b :: bs =>
    if a.toNat < b.toNat then true
    else if b.toNat < a.toNat then false
    else strLeB as bs

/-- Python's `≤` on strings: code-point lexicographic order. -/
def strle (a b : String) : Prop := strLeB a.data b.data = true

instance : DecidableRel strle :=
  fun a b => inferInstanceAs (Decidable (strLeB a.data b.data = true))

theorem strLeB_total (as : List Char) : ∀ bs, strLeB as bs = true ∨ strLeB bs as = true := by
  induction as with
  | nil => intro bs; exact .inl rfl
  | cons a as ih =>
    intro bs
    cases bs with
    | nil => exact .inr rfl
    | cons b bs =>
      rcases Nat.lt_trichotomy a.toNat b.toNat with h | h | h
      · left; simp [strLeB, h]
      · rcases ih bs with h2 | h2
        · left; simp only [strLeB, h, lt_self_iff_false, if_false]; exact h2
        · right; simp only [strLeB, h, lt_self_iff_false, if_false]; exact h2
      · right; simp [strLeB, h]

theorem strLeB_trans (as : List Char) :
    ∀ bs cs, strLeB as bs = true → strLeB bs cs = true → strLeB as cs = true := by
  induction as with
  | nil => intro bs cs _ _; rfl
  | cons a as ih =>
    intro bs cs h1 h2
    cases bs with
    | nil => simp [strLeB] at h1
    | cons b bs =>
      cases cs with
      | nil => simp [strLeB] at h2
      | cons c cs =>
        rcases Nat.lt_trichotomy a.toNat b.toNat with hab | hab | hab
        · rcases Nat.lt_trichotomy b.toNat c.toNat with hbc | hbc | hbc
          · simp [strLeB, Nat.lt_trans hab hbc]
          · rw [hbc] at hab; simp [strLeB, hab]
          · simp [strLeB, hbc, Nat.lt_asymm hbc] at h2
        · rcases Nat.lt_trichotomy b.toNat c.toNat with hbc | hbc | hbc
          · simp [strLeB, hab, hbc]
          · simp only [strLeB, hab, lt_self_iff_false, if_false] at h1
            simp only [strLeB, hbc, lt_self_iff_false, if_false] at h2
            simp only [strLeB, hab, hbc, lt_self_iff_false, if_false]
            exact ih bs cs h1 h2
          · simp [strLeB, hbc, Nat.lt_asymm hbc] at h2
        · simp [strLeB, hab, Nat.lt_asymm hab] at h1

theorem strLeB_antisymm (as : List Char) :
    ∀ bs, strLeB as bs = true → strLeB bs as = true → as = bs := by
  induction as with
  | nil =>
    intro bs _ h2
    cases bs with
    | nil => rfl
    | cons b bs => simp [strLeB] at h2
  | cons a as ih =>
    intro bs h1 h2
    cases bs with
    | nil => simp [strLeB] at h1
    | cons b bs =>
      rcases Nat.lt_trichotomy a.toNat b.toNat with h | h | h
      · simp [strLeB, h, Nat.lt_asymm h] at h2
      · have hab : a = b := Char.ext_iff.mpr (UInt32.ext_iff.mpr h)
        subst hab
        simp only [strLeB, lt_self_iff_false, if_false] at h1 h2
        rw [ih bs h1 h2]
      · simp [strLeB, h, Nat.lt_asymm h] at h1

instance : IsTotal String strle := ⟨fun a b => strLeB_total a.data b.data⟩

instance : IsTrans String strle := ⟨fun a b c => strLeB_trans a.data b.data c.data⟩

instance : IsAntisymm String strle :=
  ⟨fun a b h1 h2 => String.ext (strLeB_antisymm a.data b.data h1 h2)⟩

/-- Python's `sorted` on a list of strings. -/
def pySorted (l : List String) : List String := l.insertionSort strle

theorem pySorted_sorted (l : List String) : (pySorted l).Sorted strle :=
  List.sorted_insertionSort strle l

theorem pySorted_perm (l : List String) : List.Perm (pySorted l) l :=
  List.perm_insertionSort strle l

theorem pySorted_nodup {l : List String} (h : l.Nodup) : (pySorted l).Nodup :=
  ((pySorted_perm l).nodup_iff).mpr h

/-- Sorting depends only on the underlying set of a duplicate-free list. -/
theorem pySorted_congr {l₁ l₂ : List String} (h₁ : l₁.Nodup) (h₂ : l₂.Nodup)
    (h : ∀ x, x ∈ l₁ ↔ x ∈ l₂) : pySorted l₁ = pySorted l₂ :=
  List.eq_of_perm_of_sorted
    ((pySorted_perm l₁).trans ((List.perm_ext_iff_of_nodup h₁ h₂).mpr h |>.trans
      (pySorted_perm l₂).symm))
    (pySorted_sorted l₁) (pySorted_sorted l₂)

/-- If a duplicate-free list is already sorted, sorting it returns it unchanged. -/
theorem pySorted_eq_self {l : List String} (h : l.Sorted strle) : pySorted l = l :=
  List.eq_of_perm_of_sorted (pySorted_perm l) (pySorted_sorted l) h

/-! ### The known enumerations (`tasks.py` lines 15-23) -/

/-- The known binaries (`all_binaries` in the source, a Python `set`). -/
def all_binaries : List String :=
  ["controller-pool", "controller-acnodal", "speaker-acnodal", "speaker-local"]

/-- The known architectures (`all_architectures` in the source, a Python `set`). -/
def all_architectures : List String :=
  ["amd64", "arm", "arm64", "ppc64le", "s390x"]

/-! ### Selector resolution (`_check_architectures`, `_check_binaries`)

A Python `set` is modelled as a duplicate-free list (`setAdd` / `setUnion`
add only missing elements); `print` + `sys.exit(1)` is modelled as an
`Except.error` carrying the offending token and the printed list of valid
tokens.
-/

/-- The error reported for an unknown selector token: the offending token and
the sorted list of valid tokens that the source prints before `sys.exit(1)`. -/
structure SelErr where
  token : String
  valid : List String
deriving DecidableEq

instance {ε α : Type} [DecidableEq ε] [DecidableEq α] : DecidableEq (Except ε α)
  | .error a, .error b =>
    if h : a = b then .isTrue (by rw [h]) else .isFalse (by simp [h])
  | .error _, .ok _ => .isFalse (by simp)
  | .ok _, .error _ => .isFalse (by simp)
  | .ok a, .ok b =>
    if h : a = b then .isTrue (by rw [h]) else .isFalse (by simp [h])

/-- `out.add(t)` on a Python set modelled as a duplicate-free list. -/
def setAdd (out : List String) (t : String) : List String :=
  if t ∈ out then out else t :: out

/-- `out |= s` on a Python set modelled as a duplicate-free list. -/
def setUnion (out : List String) (s : List String) : List String :=
  s.foldl setAdd out

/-- The validation loop shared by `_check_architectures` and `_check_binaries`:
each token `"all"` unions in the whole known enumeration, a known token is
added, and an unknown token reports the token plus the sorted valid list and
exits. -/
def checkLoop (known : List String) : List String → List String → Except SelErr (List String)
  | [], out => .ok out
  | t :: rest, out =>
    if t = "all" then checkLoop known rest (setUnion out known)
    else if t ∉ known then .error ⟨t, pySorted known⟩
    else checkLoop known rest (setAdd out t)

/-- `_check_architectures` (`tasks.py` lines 25-38): resolve architecture
selector tokens; an empty result defaults to `{"amd64"}`; the result is
returned as `list(sorted(out))`. -/
def _check_architectures (architectures : List String) : Except SelErr (List String) :=
  match checkLoop all_architectures architectures [] with
  | .error e => .error e
  | .ok out => .ok (pySorted (if out = [] then setAdd out "amd64" else out))

/-- `_check_binaries` (`tasks.py` lines 40-53): resolve binary selector
tokens; an empty result defaults to the full binary set; the result is
returned as `list(sorted(out))`. -/
def _check_binaries (binaries : List String) : Except SelErr (List String) :=
  match checkLoop all_binaries binaries [] with
  | .error e => .error e
  | .ok out => .ok (pySorted (if out = [] then setUnion out all_binaries else out))

/-- What a single token contributes to the resolved set: `"all"` contributes
the whole known enumeration, a plain token contributes itself. -/
def tokSet (known : List String) (t : String) : List String :=
  if t = "all" then known else [t]

theorem mem_setAdd {out : List String} {t x : String} :
    x ∈ setAdd out t ↔ x = t ∨ x ∈ out := by
  unfold setAdd
  split_ifs with h
  · constructor
    · exact .inr
    · rintro (rfl | hx)
      · exact h
      · exact hx
  · simp [List.mem_cons]

theorem nodup_setAdd {out : List String} (t : String) (h : out.Nodup) :
    (setAdd out t).Nodup := by
  unfold setAdd
  split_ifs with ht
  · exact h
  · exact List.nodup_cons.mpr ⟨ht, h⟩

theorem mem_setUnion {x : String} :
    ∀ (s out : List String), x ∈ setUnion out s ↔ x ∈ out ∨ x ∈ s := by
  intro s
  induction s with
  | nil => intro out; simp [setUnion]
  | cons a s ih =>
    intro out
    have : setUnion out (a :: s) = setUnion (setAdd out a) s := rfl
    rw [this, ih, mem_setAdd]
    simp [List.mem_cons]
    tauto

theorem nodup_setUnion :
    ∀ (s out : List String), out.Nodup → (setUnion out s).Nodup := by
  intro s
  induction s with
  | nil => intro out h; exact h
  | cons a s ih => intro out h; exact ih (setAdd out a) (nodup_setAdd a h)

theorem checkLoop_ok_inv (known : List String) :
    ∀ toks out res, checkLoop known toks out = .ok res →
      (∀ t ∈ toks, t = "all" ∨ t ∈ known) ∧
      (out.Nodup → res.Nodup) ∧
      (∀ x, x ∈ res ↔ x ∈ out ∨ ∃ t ∈ toks, x ∈ tokSet known t) := by
  intro toks
  induction toks with
  | nil =>
    intro out res h
    obtain rfl : out = res := by simpa [checkLoop] using h
    exact ⟨by simp, id, by simp⟩
  | cons t rest ih =>
    intro out res h
    unfold checkLoop at h
    split_ifs at h with h1 h2
    · obtain ⟨hv, hn, hm⟩ := ih _ _ h
      refine ⟨?_, fun hn0 => hn (nodup_setUnion _ _ hn0), ?_⟩
      · intro u hu
        rcases List.mem_cons.mp hu with rfl | hu
        · exact .inl h1
        · exact hv u hu
      · intro x
        rw [hm x, mem_setUnion]
        constructor
        · rintro ((hx | hx) | ⟨u, hu, hxu⟩)
          · exact .inl hx
          · exact .inr ⟨t, List.mem_cons_self t rest, by simpa [tokSet, h1] using hx⟩
          · exact .inr ⟨u, List.mem_cons_of_mem t hu, hxu⟩
        · rintro (hx | ⟨u, hu, hxu⟩)
          · exact .inl (.inl hx)
          · rcases List.mem_cons.mp hu with rfl | hu
            · exact .inl (.inr (by simpa [tokSet, h1] using hxu))
            · exact .inr ⟨u, hu, hxu⟩
    · obtain ⟨hv, hn, hm⟩ := ih _ _ h
      refine ⟨?_, fun hn0 => hn (nodup_setAdd t hn0), ?_⟩
      · intro u hu
        rcases List.mem_cons.mp hu with rfl | hu
        · exact .inr h2
        · exact hv u hu
      · intro x
        rw [hm x, mem_setAdd]
        constructor
        · rintro ((hxt | hx) | ⟨u, hu, hxu⟩)
          · exact .inr ⟨t, List.mem_cons_self t rest, by simp [tokSet, h1, hxt]⟩
          · exact .inl hx
          · exact .inr ⟨u, List.mem_cons_of_mem t hu, hxu⟩
        · rintro (hx | ⟨u, hu, hxu⟩)
          · exact .inl (.inr hx)
          · rcases List.mem_cons.mp hu with rfl | hu
            · exact .inl (.inl (by simpa [tokSet, h1] using hxu))
            · exact .inr ⟨u, hu, hxu⟩

theorem checkLoop_ok_of_valid (known : List String) :
    ∀ toks out, (∀ t ∈ toks, t = "all" ∨ t ∈ known) →
      ∃ res, checkLoop known toks out = .ok res := by
  intro toks
  induction toks with
  | nil => intro out _; exact ⟨out, rfl⟩
  | cons t rest ih =>
    intro out hv
    unfold checkLoop
    rcases hv t (List.mem_cons_self t rest) with h1 | h1
    · rw [if_pos h1]
      exact ih _ fun u hu => hv u (List.mem_cons_of_mem t hu)
    · by_cases hall : t = "all"
      · rw [if_pos hall]
        exact ih _ fun u hu => hv u (List.mem_cons_of_mem t hu)
      · rw [if_neg hall, if_neg (not_not.mpr h1)]
        exact ih _ fun u hu => hv u (List.mem_cons_of_mem t hu)

theorem checkLoop_error_of_invalid (known : List String) :
    ∀ toks out, (∃ t ∈ toks, t ≠ "all" ∧ t ∉ known) →
      ∃ t, checkLoop known toks out = .error ⟨t, pySorted known⟩ ∧
        t ∈ toks ∧ t ≠ "all" ∧ t ∉ known := by
  intro toks
  induction toks with
  | nil => rintro out ⟨t, ht, _⟩; exact absurd ht (List.not_mem_nil t)
  | cons u rest ih =>
    rintro out ⟨t, ht, hta, htk⟩
    unfold checkLoop
    by_cases h1 : u = "all"
    · rw [if_pos h1]
      have htr : t ∈ rest := by
        rcases List.mem_cons.mp ht with rfl | h
        · exact absurd h1 hta
        · exact h
      obtain ⟨w, hw, hwm, hwa, hwk⟩ := ih _ ⟨t, htr, hta, htk⟩
      exact ⟨w, hw, List.mem_cons_of_mem u hwm, hwa, hwk⟩
    · rw [if_neg h1]
      by_cases h2 : u ∈ known
      · rw [if_neg (not_not.mpr h2)]
        have htr : t ∈ rest := by
          rcases List.mem_cons.mp ht with rfl | h
          · exact absurd h2 htk
          · exact h
        obtain ⟨w, hw, hwm, hwa, hwk⟩ := ih _ ⟨t, htr, hta, htk⟩
        exact ⟨w, hw, List.mem_cons_of_mem u hwm, hwa, hwk⟩
      · rw [if_pos h2]
        exact ⟨u, rfl, List.mem_cons_self u rest, h1, h2⟩

theorem pySorted_eq_nil_iff {l : List String} : pySorted l = [] ↔ l = [] := by
  constructor
  · intro h
    have hp := pySorted_perm l
    rw [h] at hp
    exact hp.symm.eq_nil
  · intro h
    rw [h]
    rfl

theorem checkLoop_all (known toks : List String) (hall : "all" ∈ toks)
    (hv : ∀ t ∈ toks, t = "all" ∨ t ∈ known) :
    ∃ res, checkLoop known toks [] = .ok res ∧ res.Nodup ∧ ∀ x, x ∈ res ↔ x ∈ known := by
  obtain ⟨res, hres⟩ := checkLoop_ok_of_valid known toks [] hv
  obtain ⟨_, hn, hm⟩ := checkLoop_ok_inv known toks [] res hres
  refine ⟨res, hres, hn List.nodup_nil, fun x => ?_⟩
  rw [hm x]
  constructor
  · rintro (hx | ⟨u, hu, hxu⟩)
    · exact absurd hx (List.not_mem_nil x)
    · by_cases hua : u = "all"
      · simpa [tokSet, hua] using hxu
      · have hxeq : x = u := by simpa [tokSet, hua] using hxu
        subst hxeq
        rcases hv x hu with h | h
        · exact absurd h hua
        · exact h
  · intro hx
    exact .inr ⟨"all", hall, by simp [tokSet, hx]⟩

theorem checkLoop_congr (known l₁ l₂ : List String)
    (hv : ∀ t ∈ l₁, t = "all" ∨ t ∈ known)
    (h12 : ∀ t ∈ l₁, t ∈ l₂) (h21 : ∀ t ∈ l₂, t ∈ l₁) :
    ∃ r₁ r₂, checkLoop known l₁ [] = .ok r₁ ∧ checkLoop known l₂ [] = .ok r₂ ∧
      r₁.Nodup ∧ r₂.Nodup ∧ (∀ x, x ∈ r₁ ↔ x ∈ r₂) := by
  have hv₂ : ∀ t ∈ l₂, t = "all" ∨ t ∈ known := fun t ht => hv t (h21 t ht)
  obtain ⟨r₁, h₁⟩ := checkLoop_ok_of_valid known l₁ [] hv
  obtain ⟨r₂, h₂⟩ := checkLoop_ok_of_valid known l₂ [] hv₂
  obtain ⟨_, hn₁, hm₁⟩ := checkLoop_ok_inv known l₁ [] r₁ h₁
  obtain ⟨_, hn₂, hm₂⟩ := checkLoop_ok_inv known l₂ [] r₂ h₂
  refine ⟨r₁, r₂, h₁, h₂, hn₁ List.nodup_nil, hn₂ List.nodup_nil, fun x => ?_⟩
  rw [hm₁ x, hm₂ x]
  constructor
  · rintro (hx | ⟨u, hu, hxu⟩)
    · exact absurd hx (List.not_mem_nil x)
    · exact .inr ⟨u, h12 u hu, hxu⟩
  · rintro (hx | ⟨u, hu, hxu⟩)
    · exact absurd hx (List.not_mem_nil x)
    · exact .inr ⟨u, h21 u hu, hxu⟩

theorem check_architectures_all {toks : List String} (hall : "all" ∈ toks)
    (hv : ∀ t ∈ toks, t = "all" ∨ t ∈ all_architectures) :
    _check_architectures toks = .ok (pySorted all_architectures) := by
  obtain ⟨res, hres, hn, hm⟩ := checkLoop_all all_architectures toks hall hv
  have hne : res ≠ [] := by
    intro he
    have hmem : "amd64" ∈ res := (hm "amd64").mpr (by simp [all_architectures])
    rw [he] at hmem
    exact List.not_mem_nil _ hmem
  simp only [_check_architectures, hres]
  rw [if_neg hne]
  exact congrArg Except.ok (pySorted_congr hn (by decide) hm)

theorem check_binaries_all {toks : List String} (hall : "all" ∈ toks)
    (hv : ∀ t ∈ toks, t = "all" ∨ t ∈ all_binaries) :
    _check_binaries toks = .ok (pySorted all_binaries) := by
  obtain ⟨res, hres, hn, hm⟩ := checkLoop_all all_binaries toks hall hv
  have hne : res ≠ [] := by
    intro he
    have hmem : "controller-pool" ∈ res := (hm "controller-pool").mpr (by simp [all_binaries])
    rw [he] at hmem
    exact List.not_mem_nil _ hmem
  simp only [_check_binaries, hres]
  rw [if_neg hne]
  exact congrArg Except.ok (pySorted_congr hn (by decide) hm)

theorem check_architectures_ok_props {toks out : List String}
    (h : _check_architectures toks = .ok out) :
    out.Sorted strle ∧ out.Nodup ∧ out ≠ [] ∧ ∀ x ∈ out, x ∈ all_architectures := by
  unfold _check_architectures at h
  rcases hc : checkLoop all_architectures toks [] with e | res
  · rw [hc] at h
    exact Except.noConfusion h
  · rw [hc] at h
    obtain ⟨hv, hn, hm⟩ := checkLoop_ok_inv _ toks [] res hc
    have hout : pySorted (if res = [] then setAdd res "amd64" else res) = out :=
      Except.ok.inj h
    by_cases he : res = []
    · rw [if_pos he, he] at hout
      subst hout
      refine ⟨pySorted_sorted _, pySorted_nodup (by decide), by decide, ?_⟩
      intro x hx
      have : x ∈ setAdd ([] : List String) "amd64" := (pySorted_perm _).subset hx
      simp only [setAdd, List.not_mem_nil, if_neg] at this
      simp only [List.mem_singleton.mp (by simpa using this)]
      decide
    · rw [if_neg he] at hout
      subst hout
      refine ⟨pySorted_sorted _, pySorted_nodup (hn List.nodup_nil), ?_, ?_⟩
      · exact fun hnil => he (pySorted_eq_nil_iff.mp hnil)
      · intro x hx
        have hxr : x ∈ res := (pySorted_perm _).subset hx
        rcases (hm x).mp hxr with h0 | ⟨u, hu, hxu⟩
        · exact absurd h0 (List.not_mem_nil x)
        · by_cases hua : u = "all"
          · simpa [tokSet, hua] using hxu
          · have hxeq : x = u := by simpa [tokSet, hua] using hxu
            subst hxeq
            rcases hv x hu with h0 | h0
            · exact absurd h0 hua
            · exact h0

theorem check_binaries_ok_props {toks out : List String}
    (h : _check_binaries toks = .ok out) :
    out.Sorted strle ∧ out.Nodup ∧ out ≠ [] ∧ ∀ x ∈ out, x ∈ all_binaries := by
  unfold _check_binaries at h
  rcases hc : checkLoop all_binaries toks [] with e | res
  · rw [hc] at h
    exact Except.noConfusion h
  · rw [hc] at h
    obtain ⟨hv, hn, hm⟩ := checkLoop_ok_inv _ toks [] res hc
    have hout : pySorted (if res = [] then setUnion res all_binaries else res) = out :=
      Except.ok.inj h
    by_cases he : res = []
    · rw [if_pos he, he] at hout
      subst hout
      refine ⟨pySorted_sorted _, pySorted_nodup (nodup_setUnion _ _ List.nodup_nil), by decide, ?_⟩
      intro x hx
      have : x ∈ setUnion ([] : List String) all_binaries := (pySorted_perm _).subset hx
      rcases (mem_setUnion _ _).mp this with h0 | h0
      · exact absurd h0 (List.not_mem_nil x)
      · exact h0
    · rw [if_neg he] at hout
      subst hout
      refine ⟨pySorted_sorted _, pySorted_nodup (hn List.nodup_nil), ?_, ?_⟩
      · exact fun hnil => he (pySorted_eq_nil_iff.mp hnil)
      · intro x hx
        have hxr : x ∈ res := (pySorted_perm _).subset hx
        rcases (hm x).mp hxr with h0 | ⟨u, hu, hxu⟩
        · exact absurd h0 (List.not_mem_nil x)
        · by_cases hua : u = "all"
          · simpa [tokSet, hua] using hxu
          · have hxeq : x = u := by simpa [tokSet, hua] using hxu
            subst hxeq
            rcases hv x hu with h0 | h0
            · exact absurd h0 hua
            · exact h0

theorem check_architectures_congr {l₁ l₂ : List String}
    (hv : ∀ t ∈ l₁, t = "all" ∨ t ∈ all_architectures)
    (h12 : ∀ t ∈ l₁, t ∈ l₂) (h21 : ∀ t ∈ l₂, t ∈ l₁) :
    _check_architectures l₁ = _check_architectures l₂ := by
  obtain ⟨r₁, r₂, h₁, h₂, hn₁, hn₂, hm⟩ := checkLoop_congr all_architectures l₁ l₂ hv h12 h21
  have hiff : r₁ = [] ↔ r₂ = [] := by
    rw [List.eq_nil_iff_forall_not_mem, List.eq_nil_iff_forall_not_mem]
    exact ⟨fun h a ha => h a ((hm a).mpr ha), fun h a ha => h a ((hm a).mp ha)⟩
  simp only [_check_architectures, h₁, h₂]
  by_cases e : r₁ = []
  · have e₂ : r₂ = [] := hiff.mp e
    rw [if_pos e, if_pos e₂, e, e₂]
  · have e₂ : r₂ ≠ [] := fun h => e (hiff.mpr h)
    rw [if_neg e, if_neg e₂]
    exact congrArg Except.ok (pySorted_congr hn₁ hn₂ hm)

theorem check_binaries_congr {l₁ l₂ : List String}
    (hv : ∀ t ∈ l₁, t = "all" ∨ t ∈ all_binaries)
    (h12 : ∀ t ∈ l₁, t ∈ l₂) (h21 : ∀ t ∈ l₂, t ∈ l₁) :
    _check_binaries l₁ = _check_binaries l₂ := by
  obtain ⟨r₁, r₂, h₁, h₂, hn₁, hn₂, hm⟩ := checkLoop_congr all_binaries l₁ l₂ hv h12 h21
  have hiff : r₁ = [] ↔ r₂ = [] := by
    rw [List.eq_nil_iff_forall_not_mem, List.eq_nil_iff_forall_not_mem]
    exact ⟨fun h a ha => h a ((hm a).mpr ha), fun h a ha => h a ((hm a).mp ha)⟩
  simp only [_check_binaries, h₁, h₂]
  by_cases e : r₁ = []
  · have e₂ : r₂ = [] := hiff.mp e
    rw [if_pos e, if_pos e₂, e, e₂]
  · have e₂ : r₂ ≠ [] := fun h => e (hiff.mpr h)
    rw [if_neg e, if_neg e₂]
    exact congrArg Except.ok (pySorted_congr hn₁ hn₂ hm)

theorem check_binaries_fixed {toks out : List String}
    (h : _check_binaries toks = .ok out) : _check_binaries out = .ok out := by
  obtain ⟨hs, hn, hne, hsub⟩ := check_binaries_ok_props h
  have hv : ∀ t ∈ out, t = "all" ∨ t ∈ all_binaries := fun t ht => .inr (hsub t ht)
  obtain ⟨res, hres⟩ := checkLoop_ok_of_valid all_binaries out [] hv
  obtain ⟨_, hrn, hrm⟩ := checkLoop_ok_inv _ out [] res hres
  have hmem : ∀ x, x ∈ res ↔ x ∈ out := by
    intro x
    rw [hrm x]
    constructor
    · rintro (hx | ⟨u, hu, hxu⟩)
      · exact absurd hx (List.not_mem_nil x)
      · have hua : u ≠ "all" := by
          intro he
          have := hsub u hu
          rw [he] at this
          revert this
          decide
        have hxeq : x = u := by simpa [tokSet, hua] using hxu
        rw [hxeq]
        exact hu
    · intro hx
      have hua : x ≠ "all" := by
        intro he
        have := hsub x hx
        rw [he] at this
        revert this
        decide
      exact .inr ⟨x, hx, by simp [tokSet, hua]⟩
  have hrne : res ≠ [] := by
    intro he
    rcases List.exists_mem_of_ne_nil out hne with ⟨a, ha⟩
    have : a ∈ res := (hmem a).mpr ha
    rw [he] at this
    exact List.not_mem_nil _ this
  simp only [_check_binaries, hres]
  rw [if_neg hrne]
  exact congrArg Except.ok
    ((pySorted_congr (hrn List.nodup_nil) hn hmem).trans (pySorted_eq_self hs))

theorem check_architectures_fixed {toks out : List String}
    (h : _check_architectures toks = .ok out) : _check_architectures out = .ok out := by
  obtain ⟨hs, hn, hne, hsub⟩ := check_architectures_ok_props h
  have hv : ∀ t ∈ out, t = "all" ∨ t ∈ all_architectures := fun t ht => .inr (hsub t ht)
  obtain ⟨res, hres⟩ := checkLoop_ok_of_valid all_architectures out [] hv
  obtain ⟨_, hrn, hrm⟩ := checkLoop_ok_inv _ out [] res hres
  have hmem : ∀ x, x ∈ res ↔ x ∈ out := by
    intro x
    rw [hrm x]
    constructor
    · rintro (hx | ⟨u, hu, hxu⟩)
      · exact absurd hx (List.not_mem_nil x)
      · have hua : u ≠ "all" := by
          intro he
          have := hsub u hu
          rw [he] at this
          revert this
          decide
        have hxeq : x = u := by simpa [tokSet, hua] using hxu
        rw [hxeq]
        exact hu
    · intro hx
      have hua : x ≠ "all" := by
        intro he
        have := hsub x hx
        rw [he] at this
        revert this
        decide
      exact .inr ⟨x, hx, by simp [tokSet, hua]⟩
  have hrne : res ≠ [] := by
    intro he
    rcases List.exists_mem_of_ne_nil out hne with ⟨a, ha⟩
    have : a ∈ res := (hmem a).mpr ha
    rw [he] at this
    exact List.not_mem_nil _ this
  simp only [_check_architectures, hres]
  rw [if_neg hrne]
  exact congrArg Except.ok
    ((pySorted_congr (hrn List.nodup_nil) hn hmem).trans (pySorted_eq_self hs))

theorem check_binaries_singleton {b : String} (hb : b ∈ all_binaries) :
    _check_binaries [b] = .ok [b] := by
  have hba : b ≠ "all" := by
    intro he
    rw [he] at hb
    revert hb
    decide
  have h1 : checkLoop all_binaries [b] [] = .ok [b] := by
    simp [checkLoop, hba, hb, setAdd]
  simp [_check_binaries, h1, pySorted, List.insertionSort]

theorem check_architectures_singleton {a : String} (ha : a ∈ all_architectures) :
    _check_architectures [a] = .ok [a] := by
  have haa : a ≠ "all" := by
    intro he
    rw [he] at ha
    revert ha
    decide
  have h1 : checkLoop all_architectures [a] [] = .ok [a] := by
    simp [checkLoop, haa, ha, setAdd]
  simp [_check_architectures, h1, pySorted, List.insertionSort]

/-! ### Build directory layout (`_make_build_dirs`, `tasks.py` lines 55-60) -/

/-- A single-quote character, used when rendering the shell command strings
of the source (which embeds quoted arguments). -/
def squote : String := ⟨[Char.ofNat 39]⟩

/-- The `mode=0o750` argument passed to `os.makedirs` in `_make_build_dirs`. -/
def buildDirMode : Nat := 0o750

/-- `_make_build_dirs`: for every known architecture and binary, create
`build/<arch>/<binary>` with `mode=0o750` unless it already exists.  The
filesystem is abstracted by the `pathExists` predicate; the result is the
list of `(directory, mode)` creation calls issued. -/
def _make_build_dirs (pathExists : String → Bool) : List (String × Nat) :=
  all_architectures.flatMap fun arch =>
    all_binaries.filterMap fun binary =>
      let dir := "build/" ++ arch ++ "/" ++ binary
      if pathExists dir then none else some (dir, buildDirMode)

/-! ### Version parsing (`semver.parse_version_info`)

Modelled from the spec: the release workflow parses its argument as a strict
semantic version `major.minor.patch` (the `semver` library is external to
the repository).  Prerelease/build-metadata suffixes are not modelled; a
malformed version raises, modelled as `none`.
-/

structure VersionInfo where
  major : Nat
  minor : Nat
  patch : Nat
deriving DecidableEq

/-- Digits of a numeric identifier to its value. -/
def digitsToNat (l : List Char) : Nat :=
  l.foldl (fun n c => n * 10 + (c.toNat - 48)) 0

/-- A semver numeric identifier: non-empty, all digits, no leading zero. -/
def parseNumericId (l : List Char) : Option Nat :=
  if l ≠ [] ∧ l.all Char.isDigit ∧ (1 < l.length → l.head? ≠ some (Char.ofNat 48))
  then some (digitsToNat l) else none

/-- Split a char list at `.` separators. -/
def splitDots : List Char → List (List Char)
  | [] => [[]]
  | c :: rest =>
    if c = Char.ofNat 46 then [] :: splitDots rest
    else
      match splitDots rest with
      | [] => [[c]]
      | g :: gs => (c :: g) :: gs

/-- `semver.parse_version_info`, modelled from the spec on plain
`major.minor.patch` strings. -/
def parse_version_info (s : String) : Option VersionInfo :=
  match splitDots s.data with
  | [a, b, c] =>
    match parseNumericId a, parseNumericId b, parseNumericId c with
    | some major, some minor, some patch => some ⟨major, minor, patch⟩
    | _, _, _ => none
  | _ => none

/-- `str(version)` for a parsed version: `major.minor.patch`. -/
def verStr (v : VersionInfo) : String :=
  toString v.major ++ "." ++ toString v.minor ++ "." ++ toString v.patch

/-! ### The release state machine (`release`, `tasks.py` lines 156-181) -/

/-- Python's `str.strip()` on the characters Lean classifies as whitespace. -/
def pyStripData (l : List Char) : List Char :=
  ((l.dropWhile Char.isWhitespace).reverse.dropWhile Char.isWhitespace).reverse

def pyStrip (s : String) : String := ⟨pyStripData s.data⟩

/-- The release branch name `v<major>.<minor>` computed by `release`. -/
def branchName (v : VersionInfo) : String :=
  "v" ++ toString v.major ++ "." ++ toString v.minor

/-- The sequence of commands `release` issues after its guards pass, in
source order: branch checkout, two manifest image patches, version-file
patch, `gofmt`, commit, and return to `main`. -/
def releaseCommands (v : VersionInfo) : List String :=
  let vs := verStr v
  let branch := branchName v
  [(if v.patch ≠ 0 then "git checkout " ++ branch else "git checkout -b " ++ branch),
   "perl -pi -e " ++ squote ++ "s,image: metallb/speaker:.*,image: metallb/speaker:v" ++
     vs ++ ",g" ++ squote ++ " deployments/metallb.yaml",
   "perl -pi -e " ++ squote ++ "s,image: metallb/controller:.*,image: metallb/controller:v" ++
     vs ++ ",g" ++ squote ++ " deployments/metallb.yaml",
   "perl -pi -e " ++ squote ++ "s/version\\s+=.*/version = \"" ++ vs ++ "\"/g" ++ squote ++
     " internal/version/version.go",
   "gofmt -w internal/version/version.go",
   "git commit -a -m " ++ squote ++ "Automated update for release v" ++ vs ++ squote,
   "git checkout main"]

/-- `release(ctx, version, skip_release_notes=False)`: the captured output of
`git status --porcelain` is `gitStatus`; a non-empty stripped status raises
`Exit` before anything else; then the version is parsed and the command
sequence of `releaseCommands` is issued.  The `skip_release_notes` parameter
is accepted but never read in the source. -/
def release (gitStatus : String) (version : String) (skip_release_notes : Bool) :
    Except String (List String) :=
  let status := pyStrip gitStatus
  if status ≠ "" then .error "git checkout not clean, cannot release"
  else
    match parse_version_info version with
    | none => .error (version ++ " is not valid SemVer string")
    | some v => .ok (releaseCommands v)

/-! ### Build / push orchestration (`build`, `push`, `push_multiarch`) -/

/-- One cell of the build matrix: its architecture, binary, docker image tag
`<docker_user>/<binary>:<tag>-<arch>` and compiler output path
`build/<arch>/<binary>/<binary>`, as formatted in the source's `go build`
and `docker build` command strings. -/
structure BuildCell where
  arch : String
  bin : String
  imageTag : String
  outPath : String
deriving DecidableEq

def mkBuildCell (docker_user tag arch bin : String) : BuildCell :=
  ⟨arch, bin,
   docker_user ++ "/" ++ bin ++ ":" ++ tag ++ "-" ++ arch,
   "build/" ++ arch ++ "/" ++ bin ++ "/" ++ bin⟩

/-- The `go build` command issued for a cell (`tasks.py` lines 87-96). -/
def goBuildCmd (c : BuildCell) (commit branch : String) : String :=
  "go build -v -o " ++ c.outPath ++ " -ldflags " ++ squote ++
    "-X go.universe.tf/metallb/internal/version.gitCommit=" ++ commit ++
    " -X go.universe.tf/metallb/internal/version.gitBranch=" ++ branch ++ squote ++
    " ./cmd/" ++ c.bin ++ "/"

/-- The `docker build` command issued for a cell (`tasks.py` lines 97-104). -/
def dockerBuildCmd (c : BuildCell) : String :=
  "docker build -t " ++ c.imageTag ++ " -f build/package/Dockerfile." ++ c.bin ++
    " build/" ++ c.arch ++ "/" ++ c.bin

/-- `build(ctx, binaries, architectures, tag, docker_user)`: resolve both
selectors, then walk the cross product architecture-major (`for arch in
architectures: for bin in binaries:`), producing one build cell per pair.
Selector errors exit the process (`Except.error`). -/
def build (binaries architectures : List String) (tag docker_user : String) :
    Except SelErr (List BuildCell) := do
  let bins ← _check_binaries binaries
  let archs ← _check_architectures architectures
  pure (archs.flatMap fun arch => bins.map fun bin => mkBuildCell docker_user tag arch bin)

/-- The `docker push` command issued per cell (`tasks.py` lines 121-126). -/
def pushCmd (docker_user bin tag arch : String) : String :=
  "docker push " ++ docker_user ++ "/" ++ bin ++ ":" ++ tag ++ "-" ++ arch

/-- `push(ctx, binaries, architectures, tag, docker_user)`: resolve both
selectors, then for each (architecture, binary) pair run a single-cell
`build` and push the resulting tag. -/
def push (binaries architectures : List String) (tag docker_user : String) :
    Except SelErr (List (List BuildCell × String)) := do
  let bins ← _check_binaries binaries
  let archs ← _check_architectures architectures
  (archs.flatMap fun arch => bins.map fun bin => (arch, bin)).mapM fun p => do
    let cells ← build [p.2] [p.1] tag docker_user
    pure (cells, pushCmd docker_user p.2 tag p.1)

/-- One `manifest-tool push from-args` invocation (`tasks.py` lines 142-150):
its `--platforms` list, `--template` pattern (literal `ARCH` placeholder) and
`--target` tag. -/
structure ManifestPush where
  platforms : String
  template : String
  target : String
deriving DecidableEq

def manifestCmd (m : ManifestPush) : String :=
  "manifest-tool push from-args --platforms " ++ m.platforms ++
    " --template " ++ m.template ++ " --target " ++ m.target

/-- `push_multiarch(ctx, binaries, tag, docker_user)`: resolve binaries,
resolve architectures from the literal `["all"]`, push the full matrix, then
issue one manifest invocation per binary with the comma-joined
`linux/<arch>` platform list, template `<user>/<bin>:<tag>-ARCH` and target
`<user>/<bin>:<tag>`. -/
def push_multiarch (binaries : List String) (tag docker_user : String) :
    Except SelErr (List (List BuildCell × String) × List ManifestPush) := do
  let bins ← _check_binaries binaries
  let archs ← _check_architectures ["all"]
  let pushed ← push bins archs tag docker_user
  let platforms := String.intercalate "," (archs.map fun arch => "linux/" ++ arch)
  pure (pushed, bins.map fun bin =>
    ⟨platforms,
     docker_user ++ "/" ++ bin ++ ":" ++ tag ++ "-ARCH",
     docker_user ++ "/" ++ bin ++ ":" ++ tag⟩)

/-! ### Supporting lemmas for the theorems below -/

theorem exists_not_mem_dropWhile {p : Char → Bool} :
    ∀ l : List Char, (∃ c ∈ l, ¬ p c = true) → ∃ c ∈ l.dropWhile p, ¬ p c = true := by
  intro l
  induction l with
  | nil => rintro ⟨c, hc, _⟩; exact absurd hc (List.not_mem_nil c)
  | cons a l ih =>
    rintro ⟨c, hc, hpc⟩
    by_cases hpa : p a = true
    · rw [List.dropWhile_cons_of_pos hpa]
      rcases List.mem_cons.mp hc with rfl | hc
      · exact absurd hpa hpc
      · exact ih ⟨c, hc, hpc⟩
    · rw [List.dropWhile_cons_of_neg hpa]
      exact ⟨a, List.mem_cons_self a l, hpa⟩

theorem pyStrip_ne_empty {s : String} (h : ∃ c ∈ s.data, c.isWhitespace = false) :
    pyStrip s ≠ "" := by
  have h0 : ∃ c ∈ s.data, ¬ c.isWhitespace = true := by
    obtain ⟨c, hc, hw⟩ := h
    exact ⟨c, hc, by simp [hw]⟩
  have h1 := exists_not_mem_dropWhile s.data h0
  have h2 : ∃ c ∈ (s.data.dropWhile Char.isWhitespace).reverse, ¬ c.isWhitespace = true := by
    obtain ⟨c, hc, hw⟩ := h1
    exact ⟨c, List.mem_reverse.mpr hc, hw⟩
  obtain ⟨c, hc, _⟩ := exists_not_mem_dropWhile _ h2
  intro he
  have hdata : pyStripData s.data = [] := congrArg String.data he
  have : ((s.data.dropWhile Char.isWhitespace).reverse.dropWhile Char.isWhitespace) = [] :=
    List.reverse_eq_nil_iff.mp hdata
  rw [this] at hc
  exact List.not_mem_nil c hc

theorem product_map_eq_flatMap {α : Type} (A B : List String) (f : String → String → α) :
    (A ×ˢ B).map (fun p => f p.1 p.2) = A.flatMap fun a => B.map fun b => f a b := by
  induction A with
  | nil => rfl
  | cons a A ih =>
    rw [List.flatMap_cons, ← ih, List.product_cons, List.map_append, List.map_map]
    rfl

theorem build_singleton {arch bin : String} (tag docker_user : String)
    (ha : arch ∈ all_architectures) (hb : bin ∈ all_binaries) :
    build [bin] [arch] tag docker_user = .ok [mkBuildCell docker_user tag arch bin] := by
  unfold build
  rw [check_binaries_singleton hb, check_architectures_singleton ha]
  rfl

theorem push_ok {binaries architectures bins archs : List String} (tag docker_user : String)
    (hb : _check_binaries binaries = .ok bins) (ha : _check_architectures architectures = .ok archs) :
    push binaries architectures tag docker_user =
      .ok ((archs.flatMap fun arch => bins.map fun bin => (arch, bin)).map
        fun p => ([mkBuildCell docker_user tag p.1 p.2], pushCmd docker_user p.2 tag p.1)) := by
  have hbs := (check_binaries_ok_props hb).2.2.2
  have has := (check_architectures_ok_props ha).2.2.2
  have hmem : ∀ p ∈ archs.flatMap fun arch => bins.map fun bin => (arch, bin),
      p.1 ∈ all_architectures ∧ p.2 ∈ all_binaries := by
    intro p hp
    rcases List.mem_flatMap.mp hp with ⟨arch, harch, hp⟩
    rcases List.mem_map.mp hp with ⟨bin, hbin, rfl⟩
    exact ⟨has arch harch, hbs bin hbin⟩
  unfold push
  rw [hb, ha]
  show (archs.flatMap fun arch => bins.map fun bin => (arch, bin)).mapM _ = _
  generalize (archs.flatMap fun arch => bins.map fun bin => (arch, bin)) = l at hmem ⊢
  induction l with
  | nil => rfl
  | cons p l ih =>
    rw [List.mapM_cons, build_singleton tag docker_user (hmem p (List.mem_cons_self p l)).1
      (hmem p (List.mem_cons_self p l)).2,
      ih fun q hq => hmem q (List.mem_cons_of_mem p hq)]
    rfl

/-! ### The claims -/

/-- Claim C1, counterexample: an input containing `"all"` together with an
unknown token does not resolve to the full enumeration — resolution exits
with an error instead, so the claim as stated fails on `["all", "bogus"]`. -/
theorem c1_counterexample :
    _check_architectures ["all", "bogus"] =
      .error ⟨"bogus", ["amd64", "arm", "arm64", "ppc64le", "s390x"]⟩ ∧
    _check_architectures ["all", "bogus"] ≠
      .ok ["amd64", "arm", "arm64", "ppc64le", "s390x"] :=
  ⟨rfl, by decide⟩

/-- Claim C1, amended: for every selector input that contains `"all"` and
whose other tokens are all valid (the wildcard or members of the known
enumeration), resolution (architecture or binary) returns the full known
enumeration, sorted. -/
theorem c1_all_token_resolves_full_set (toks : List String) :
    ("all" ∈ toks → (∀ t ∈ toks, t = "all" ∨ t ∈ all_architectures) →
      _check_architectures toks = .ok (pySorted all_architectures)) ∧
    ("all" ∈ toks → (∀ t ∈ toks, t = "all" ∨ t ∈ all_binaries) →
      _check_binaries toks = .ok (pySorted all_binaries)) :=
  ⟨fun h1 h2 => check_architectures_all h1 h2, fun h1 h2 => check_binaries_all h1 h2⟩

/-- Claim C1, witness: concrete instances of the amended claim. -/
theorem c1_witness :
    _check_architectures ["arm", "all"] = .ok (pySorted all_architectures) ∧
    _check_binaries ["speaker-local", "all"] = .ok (pySorted all_binaries) :=
  ⟨(c1_all_token_resolves_full_set ["arm", "all"]).1 (by decide) (by decide),
   (c1_all_token_resolves_full_set ["speaker-local", "all"]).2 (by decide) (by decide)⟩

/-- Claim C2: at version `1.2.3` with a clean tree, `release` issues exactly
these commands.  The only deployment-manifest patches target
`image: metallb/speaker:` and `image: metallb/controller:`, yet neither
`speaker` nor `controller` is a known binary of this project — all four known
image-bearing binaries (`controller-pool`, `controller-acnodal`,
`speaker-acnodal`, `speaker-local`) are absent from the patch commands, so
their image lines are never rewritten. -/
theorem c2_release_patches_nonproject_images :
    release "" "1.2.3" false = .ok
      ["git checkout v1.2",
       "perl -pi -e " ++ squote ++ "s,image: metallb/speaker:.*,image: metallb/speaker:v1.2.3,g" ++
         squote ++ " deployments/metallb.yaml",
       "perl -pi -e " ++ squote ++ "s,image: metallb/controller:.*,image: metallb/controller:v1.2.3,g" ++
         squote ++ " deployments/metallb.yaml",
       "perl -pi -e " ++ squote ++ "s/version\\s+=.*/version = \"1.2.3\"/g" ++ squote ++
         " internal/version/version.go",
       "gofmt -w internal/version/version.go",
       "git commit -a -m " ++ squote ++ "Automated update for release v1.2.3" ++ squote,
       "git checkout main"] ∧
    "speaker" ∉ all_binaries ∧ "controller" ∉ all_binaries ∧
    "controller-pool" ∈ all_binaries ∧ "controller-acnodal" ∈ all_binaries ∧
    "speaker-acnodal" ∈ all_binaries ∧ "speaker-local" ∈ all_binaries :=
  ⟨rfl, by decide, by decide, by decide, by decide, by decide, by decide⟩

/-- Claim C3, counterexample: with an empty filesystem the first directory
creation call uses mode `0o750`, whose group bits (`mode % 64 = 0o50`) are
non-zero, so not every directory is created owner-only; the `all` test of the
claimed property over the issued creation calls evaluates to `false`. -/
theorem c3_counterexample :
    (_make_build_dirs fun _ => false).head? = some ("build/amd64/controller-pool", 0o750) ∧
    ¬ (0o750 % 64 = 0) ∧
    ((_make_build_dirs fun _ => false).all fun p => p.2 % 64 = 0) = false :=
  ⟨rfl, by decide, rfl⟩

/-- Claim C3, amended: every build directory created by the layout manager is
created with mode `0o750` — owner read/write/execute and group read/execute,
with no permission bits for others. -/
theorem c3_build_dirs_mode (pathExists : String → Bool) :
    ∀ p ∈ _make_build_dirs pathExists, p.2 = 0o750 := by
  intro p hp
  simp only [_make_build_dirs, List.mem_flatMap, List.mem_filterMap] at hp
  obtain ⟨arch, _, bin, _, hif⟩ := hp
  by_cases h : pathExists ("build/" ++ arch ++ "/" ++ bin)
  · simp [h] at hif
  · simp only [h, if_neg, Bool.false_eq_true, not_false_eq_true, Option.some.injEq] at hif
    rw [← hif]
    rfl

/-- Claim C3, witness: the first creation call, at mode `0o750`. -/
theorem c3_witness :
    ("build/amd64/controller-pool", (0o750 : Nat)) ∈ _make_build_dirs (fun _ => false) ∧
    (("build/amd64/controller-pool", (0o750 : Nat)) : String × Nat).2 = 0o750 :=
  ⟨by decide, c3_build_dirs_mode (fun _ => false) _ (by decide)⟩

/-- Claim C4: whenever the captured `git status --porcelain` output contains
any non-whitespace character (a dirty tree), `release` aborts with the
dirty-tree error and issues no commands at all — in particular no checkout,
patch or commit command. -/
theorem c4_dirty_tree_aborts (gitStatus version : String) (skip : Bool)
    (h : ∃ c ∈ gitStatus.data, c.isWhitespace = false) :
    release gitStatus version skip = .error "git checkout not clean, cannot release" := by
  unfold release
  rw [if_pos (pyStrip_ne_empty h)]

/-- Claim C4, witness: a dirty working tree aborts the release. -/
theorem c4_witness :
    release " M tasks.py" "1.0.0" false = .error "git checkout not clean, cannot release" :=
  c4_dirty_tree_aborts " M tasks.py" "1.0.0" false (by decide)

/-- Claim C5: with a clean tree and a well-formed version, `release` succeeds
and its first command checks out the existing branch `v<major>.<minor>`
(no `-b`) when `patch ≠ 0`, and creates a new branch `v<major>.<minor>`
(`git checkout -b`) when `patch = 0`. -/
theorem c5_branch_decision (gitStatus version : String) (skip : Bool) (v : VersionInfo)
    (hclean : pyStrip gitStatus = "") (hv : parse_version_info version = some v) :
    release gitStatus version skip = .ok (releaseCommands v) ∧
    (v.patch ≠ 0 → (releaseCommands v).head? = some ("git checkout " ++ branchName v)) ∧
    (v.patch = 0 → (releaseCommands v).head? = some ("git checkout -b " ++ branchName v)) := by
  refine ⟨?_, fun hp => ?_, fun hp => ?_⟩
  · unfold release
    rw [hclean, if_neg (by simp), hv]
  · simp [releaseCommands, hp]
  · simp [releaseCommands, hp]

/-- Claim C5, witness: version `1.4.0` creates branch `v1.4`, version `1.4.3`
checks out the existing branch `v1.4`. -/
theorem c5_witness :
    release "" "1.4.0" false = .ok (releaseCommands ⟨1, 4, 0⟩) ∧
    (releaseCommands ⟨1, 4, 0⟩).head? = some "git checkout -b v1.4" ∧
    release "" "1.4.3" false = .ok (releaseCommands ⟨1, 4, 3⟩) ∧
    (releaseCommands ⟨1, 4, 3⟩).head? = some "git checkout v1.4" := by
  have h0 := c5_branch_decision "" "1.4.0" false ⟨1, 4, 0⟩ rfl rfl
  have h3 := c5_branch_decision "" "1.4.3" false ⟨1, 4, 3⟩ rfl rfl
  exact ⟨h0.1, h0.2.2 rfl, h3.1, h3.2.1 (by decide)⟩

/-- Claim C6: for resolved binary set `B` and architecture set `A`, `build`
produces exactly the cross product `A ×ˢ B` in architecture-major order, each
cell carrying image tag `<docker_user>/<binary>:<tag>-<arch>` and output path
`build/<arch>/<binary>/<binary>`. -/
theorem c6_build_matrix (binaries architectures : List String) (tag docker_user : String)
    (B A : List String)
    (hb : _check_binaries binaries = .ok B) (ha : _check_architectures architectures = .ok A) :
    build binaries architectures tag docker_user =
      .ok ((A ×ˢ B).map fun p => mkBuildCell docker_user tag p.1 p.2) ∧
    ∀ arch bin,
      (mkBuildCell docker_user tag arch bin).imageTag =
        docker_user ++ "/" ++ bin ++ ":" ++ tag ++ "-" ++ arch ∧
      (mkBuildCell docker_user tag arch bin).outPath =
        "build/" ++ arch ++ "/" ++ bin ++ "/" ++ bin := by
  refine ⟨?_, fun arch bin => ⟨rfl, rfl⟩⟩
  unfold build
  rw [hb, ha, product_map_eq_flatMap]
  rfl

/-- Claim C6, witness: two binaries and two architectures yield exactly the
four cells of the cross product, architecture-major. -/
theorem c6_witness :
    build ["controller-pool", "speaker-local"] ["amd64", "arm"] "dev" "metallb" =
      .ok ((["amd64", "arm"] ×ˢ ["controller-pool", "speaker-local"]).map
        fun p => mkBuildCell "metallb" "dev" p.1 p.2) ∧
    ["amd64", "arm"] ×ˢ ["controller-pool", "speaker-local"] =
      [("amd64", "controller-pool"), ("amd64", "speaker-local"),
       ("arm", "controller-pool"), ("arm", "speaker-local")] :=
  ⟨(c6_build_matrix ["controller-pool", "speaker-local"] ["amd64", "arm"] "dev" "metallb"
      ["controller-pool", "speaker-local"] ["amd64", "arm"] rfl rfl).1, rfl⟩

/-- Claim C7: `push_multiarch` resolves its architecture set from the literal
`["all"]` — the full known enumeration, no selector can narrow it — and for
each resolved binary issues exactly one manifest invocation whose platform
list is the comma-joined `linux/<arch>` identifiers over every known
architecture, whose template is `<user>/<binary>:<tag>-ARCH` and whose target
is `<user>/<binary>:<tag>` with no architecture suffix. -/
theorem c7_push_multiarch_full_set (binaries : List String) (tag docker_user : String)
    (bins : List String) (hb : _check_binaries binaries = .ok bins) :
    _check_architectures ["all"] = .ok (pySorted all_architectures) ∧
    ∃ pushed, push_multiarch binaries tag docker_user = .ok (pushed,
      bins.map fun bin =>
        ⟨String.intercalate "," ((pySorted all_architectures).map fun arch => "linux/" ++ arch),
         docker_user ++ "/" ++ bin ++ ":" ++ tag ++ "-ARCH",
         docker_user ++ "/" ++ bin ++ ":" ++ tag⟩) := by
  have hall : _check_architectures ["all"] = .ok (pySorted all_architectures) := rfl
  refine ⟨hall, ?_⟩
  refine ⟨((pySorted all_architectures).flatMap fun arch => bins.map fun bin => (arch, bin)).map
    fun p => ([mkBuildCell docker_user tag p.1 p.2], pushCmd docker_user p.2 tag p.1), ?_⟩
  have step : push_multiarch binaries tag docker_user =
      push bins (pySorted all_architectures) tag docker_user >>= fun pushed =>
        pure (pushed, bins.map fun bin =>
          (⟨String.intercalate "," ((pySorted all_architectures).map fun arch => "linux/" ++ arch),
            docker_user ++ "/" ++ bin ++ ":" ++ tag ++ "-ARCH",
            docker_user ++ "/" ++ bin ++ ":" ++ tag⟩ : ManifestPush)) := by
    unfold push_multiarch
    rw [hb, hall]
    rfl
  rw [step, push_ok tag docker_user (check_binaries_fixed hb) (check_architectures_fixed hall)]
  rfl

/-- Claim C7, witness: a single binary, at tag `dev` and user `u`. -/
theorem c7_witness :
    _check_architectures ["all"] = .ok (pySorted all_architectures) ∧
    ∃ pushed, push_multiarch ["speaker-local"] "dev" "u" = .ok (pushed,
      ["speaker-local"].map fun bin =>
        ⟨String.intercalate "," ((pySorted all_architectures).map fun arch => "linux/" ++ arch),
         "u" ++ "/" ++ bin ++ ":" ++ "dev" ++ "-ARCH",
         "u" ++ "/" ++ bin ++ ":" ++ "dev"⟩) :=
  c7_push_multiarch_full_set ["speaker-local"] "dev" "u" ["speaker-local"] rfl

/-- Claim C8: any selector input containing a token that is neither `"all"`
nor a member of the known enumeration makes resolution exit with an error
that reports an offending token together with the sorted full list of valid
tokens, and no resolved set is returned. -/
theorem c8_invalid_token_exits (toks : List String) :
    ((∃ t ∈ toks, t ≠ "all" ∧ t ∉ all_architectures) →
      ∃ t, _check_architectures toks = .error ⟨t, pySorted all_architectures⟩ ∧
        t ∈ toks ∧ t ≠ "all" ∧ t ∉ all_architectures) ∧
    ((∃ t ∈ toks, t ≠ "all" ∧ t ∉ all_binaries) →
      ∃ t, _check_binaries toks = .error ⟨t, pySorted all_binaries⟩ ∧
        t ∈ toks ∧ t ≠ "all" ∧ t ∉ all_binaries) := by
  constructor
  · intro h
    obtain ⟨t, hw, hm, ha, hk⟩ := checkLoop_error_of_invalid all_architectures toks [] h
    exact ⟨t, by simp [_check_architectures, hw], hm, ha, hk⟩
  · intro h
    obtain ⟨t, hw, hm, ha, hk⟩ := checkLoop_error_of_invalid all_binaries toks [] h
    exact ⟨t, by simp [_check_binaries, hw], hm, ha, hk⟩

/-- Claim C8, witness: `"mips"` is rejected by both resolvers. -/
theorem c8_witness :
    (∃ t, _check_architectures ["amd64", "mips"] =
        .error ⟨t, pySorted all_architectures⟩ ∧
      t ∈ ["amd64", "mips"] ∧ t ≠ "all" ∧ t ∉ all_architectures) ∧
    (∃ t, _check_binaries ["mips"] = .error ⟨t, pySorted all_binaries⟩ ∧
      t ∈ ["mips"] ∧ t ≠ "all" ∧ t ∉ all_binaries) :=
  ⟨(c8_invalid_token_exits ["amd64", "mips"]).1 (by decide),
   (c8_invalid_token_exits ["mips"]).2 (by decide)⟩

/-- Claim C9: every successful resolution is sorted (code-point order, as
Python's `sorted`) and duplicate-free, and resolution of valid-token inputs
is invariant under permutation and duplication of the input (same member
set, any order, any multiplicity). -/
theorem c9_resolution_canonical (l₁ l₂ : List String) :
    (∀ out, _check_architectures l₁ = .ok out → out.Sorted strle ∧ out.Nodup) ∧
    (∀ out, _check_binaries l₁ = .ok out → out.Sorted strle ∧ out.Nodup) ∧
    ((∀ t ∈ l₁, t = "all" ∨ t ∈ all_architectures) → (∀ t ∈ l₁, t ∈ l₂) → (∀ t ∈ l₂, t ∈ l₁) →
      _check_architectures l₁ = _check_architectures l₂) ∧
    ((∀ t ∈ l₁, t = "all" ∨ t ∈ all_binaries) → (∀ t ∈ l₁, t ∈ l₂) → (∀ t ∈ l₂, t ∈ l₁) →
      _check_binaries l₁ = _check_binaries l₂) :=
  ⟨fun _ h => ⟨(check_architectures_ok_props h).1, (check_architectures_ok_props h).2.1⟩,
   fun _ h => ⟨(check_binaries_ok_props h).1, (check_binaries_ok_props h).2.1⟩,
   fun hv h12 h21 => check_architectures_congr hv h12 h21,
   fun hv h12 h21 => check_binaries_congr hv h12 h21⟩

/-- Claim C9, witness: concrete sorted/duplicate-free outputs and
permutation/duplication invariance. -/
theorem c9_witness :
    (["amd64", "arm"].Sorted strle ∧ ["amd64", "arm"].Nodup) ∧
    (["speaker-acnodal", "speaker-local"].Sorted strle ∧
      ["speaker-acnodal", "speaker-local"].Nodup) ∧
    _check_architectures ["arm", "amd64", "arm"] = _check_architectures ["amd64", "arm"] ∧
    _check_binaries ["speaker-local", "speaker-acnodal", "speaker-local"] =
      _check_binaries ["speaker-acnodal", "speaker-local"] :=
  ⟨(c9_resolution_canonical ["arm", "amd64", "arm"] ["amd64", "arm"]).1
      ["amd64", "arm"] (by decide),
   (c9_resolution_canonical ["speaker-local", "speaker-acnodal", "speaker-local"]
      ["speaker-acnodal", "speaker-local"]).2.1
      ["speaker-acnodal", "speaker-local"] (by decide),
   (c9_resolution_canonical ["arm", "amd64", "arm"] ["amd64", "arm"]).2.2.1
      (by decide) (by decide) (by decide),
   (c9_resolution_canonical ["speaker-local", "speaker-acnodal", "speaker-local"]
      ["speaker-acnodal", "speaker-local"]).2.2.2
      (by decide) (by decide) (by decide)⟩

/-- Claim C10: the behaviour of `release` is independent of its
`skip_release_notes` argument — the parameter is accepted but never read, so
any two invocations differing only in it produce identical results. -/
theorem c10_skip_release_notes_unread (gitStatus version : String) (b₁ b₂ : Bool) :
    release gitStatus version b₁ = release gitStatus version b₂ := rfl

end Tasks
